import Mathlib

/-!
Verification development for the user-profile persistence and
progress-tracking subsystem of the interview-prep quiz application
(`generation_agent/user_profile.py`).

The Python class `UserProfile` keeps an in-memory `profile` dictionary with
four fields (`learning_paths`, `progress`, `quiz_results`, `preferences`) and
mirrors it into four SQLite tables.  Python dictionaries are modelled as
association lists (insertion ordered, first-match lookup, in-place
replacement on key reassignment), which matches CPython dict semantics.
Python exceptions that the code can raise are modelled by an `Except` result:
`KeyError` on a missing dict key becomes `ProfileError.notFound`,
`IndexError` on list indexing becomes `ProfileError.bounds`, and
`ZeroDivisionError` in the completion-estimate division becomes
`ProfileError.invalidConfig` (the spec's names for the same conditions).
Timestamps produced by `datetime.now()` are passed in explicitly as a `now`
parameter; ISO dates are abstracted as rational day numbers.
-/

/-- First-match lookup in an association list, as Python `d[k]` /
`k in d` over an insertion-ordered dict. -/
def alookup {κ α : Type} [DecidableEq κ] : List (κ × α) → κ → Option α
  | [], _ => none
  | (k, v) :: t, k' => if k = k' then some v else alookup t k'

/-- Python dict assignment `d[k] = v`: replace in place if the key is
present, otherwise append at the end (insertion order preserved). -/
def aupsert {κ α : Type} [DecidableEq κ] : List (κ × α) → κ → α → List (κ × α)
  | [], k, v => [(k, v)]
  | (k', v') :: t, k, v => if k' = k then (k, v) :: t else (k', v') :: aupsert t k v

@[simp] theorem alookup_nil {κ α : Type} [DecidableEq κ] (k : κ) :
    alookup ([] : List (κ × α)) k = none := rfl

@[simp] theorem alookup_cons {κ α : Type} [DecidableEq κ] (k k' : κ) (v : α) (t : List (κ × α)) :
    alookup ((k, v) :: t) k' = if k = k' then some v else alookup t k' := rfl

theorem alookup_aupsert_self {κ α : Type} [DecidableEq κ] (l : List (κ × α)) (k : κ) (v : α) :
    alookup (aupsert l k v) k = some v := by
  induction l with
  | nil => simp [aupsert]
  | cons hd t ih =>
      obtain ⟨k', v'⟩ := hd
      by_cases h : k' = k
      · subst h; simp [aupsert]
      · simp [aupsert, h, ih]

theorem alookup_aupsert_ne {κ α : Type} [DecidableEq κ] (l : List (κ × α)) (k k' : κ) (v : α)
    (h : k ≠ k') : alookup (aupsert l k v) k' = alookup l k' := by
  induction l with
  | nil => simp [aupsert, h]
  | cons hd t ih =>
      obtain ⟨k0, v0⟩ := hd
      by_cases h0 : k0 = k
      · subst h0; simp [aupsert, h]
      · simp only [aupsert, if_neg h0, alookup_cons, ih]

theorem alookup_append {κ α : Type} [DecidableEq κ] (l₁ l₂ : List (κ × α)) (k : κ) :
    alookup (l₁ ++ l₂) k =
      match alookup l₁ k with
      | some v => some v
      | none => alookup l₂ k := by
  induction l₁ with
  | nil => simp
  | cons hd t ih =>
      obtain ⟨k0, v0⟩ := hd
      by_cases h : k0 = k
      · simp [h]
      · simp [h, ih]

/-- Keys of an association list. -/
def akeys {κ α : Type} (l : List (κ × α)) : List κ := l.map Prod.fst

theorem mem_akeys_aupsert {κ α : Type} [DecidableEq κ] (l : List (κ × α)) (k k' : κ) (v : α) :
    k' ∈ akeys (aupsert l k v) ↔ k' ∈ akeys l ∨ k' = k := by
  induction l with
  | nil => simp [aupsert, akeys]
  | cons hd t ih =>
      obtain ⟨k0, v0⟩ := hd
      by_cases h : k0 = k
      · subst h; simp [aupsert, akeys]; tauto
      · simp [aupsert, h, akeys] at ih ⊢
        rw [ih]; tauto

theorem nodup_akeys_aupsert {κ α : Type} [DecidableEq κ] (l : List (κ × α)) (k : κ) (v : α)
    (h : (akeys l).Nodup) : (akeys (aupsert l k v)).Nodup := by
  induction l with
  | nil => simp [aupsert, akeys]
  | cons hd t ih =>
      obtain ⟨k0, v0⟩ := hd
      simp only [akeys, List.map_cons, List.nodup_cons] at h
      by_cases hk : k0 = k
      · subst hk
        simpa [aupsert, akeys] using h
      · have := ih h.2
        simp only [aupsert, if_neg hk, akeys, List.map_cons, List.nodup_cons]
        refine ⟨?_, this⟩
        intro hmem
        rcases (mem_akeys_aupsert t k k0 v).mp hmem with h1 | h1
        · exact h.1 (by simpa [akeys] using h1)
        · exact hk h1

theorem alookup_eq_none_of_not_mem_akeys {κ α : Type} [DecidableEq κ]
    (l : List (κ × α)) (k : κ) (h : k ∉ akeys l) : alookup l k = none := by
  induction l with
  | nil => rfl
  | cons hd t ih =>
      obtain ⟨k0, v0⟩ := hd
      simp only [akeys, List.map_cons, List.mem_cons] at h
      push_neg at h
      rw [alookup_cons, if_neg (fun hh => h.1 hh.symm)]
      exact ih (by simpa [akeys] using h.2)

/-! ## Character-level string utilities

These model the Python string primitives used by
`_calculate_completion_estimates`: the substring test `"-" in s`,
`str.split()` (split on whitespace runs, dropping empty pieces),
`str.split("-")` (single-character separator, keeping empty pieces),
`str.strip()`, and `float(s)` on plain decimal literals. -/

def isSpaceCh (c : Char) : Bool := c = ' ' || c = '\t' || c = '\n' || c = '\r'

/-- Does `pat` occur at the start of `l`? -/
def leadsWith : List Char → List Char → Bool
  | [], _ => true
  | _ :: _, [] => false
  | a :: as, b :: bs => a == b && leadsWith as bs

/-- Does `pat` occur anywhere inside `l`?  Models Python `pat in s`. -/
def occursIn (pat : List Char) : List Char → Bool
  | [] => pat.isEmpty
  | c :: cs => leadsWith pat (c :: cs) || occursIn pat cs

/-- Accumulator-passing core of `wsplit`. -/
def wsplitGo : List Char → List Char → List (List Char)
  | cur, [] => if cur.isEmpty then [] else [cur.reverse]
  | cur, c :: cs =>
      if isSpaceCh c then
        if cur.isEmpty then wsplitGo [] cs else cur.reverse :: wsplitGo [] cs
      else wsplitGo (c :: cur) cs

/-- Python `s.split()`: split on runs of whitespace, dropping empty pieces. -/
def wsplit (l : List Char) : List (List Char) := wsplitGo [] l

/-- Python `s.split(sep)` for a one-character separator: empty pieces kept. -/
def splitOnCh (sep : Char) : List Char → List (List Char)
  | [] => [[]]
  | c :: cs =>
      let r := splitOnCh sep cs
      if c = sep then [] :: r
      else
        match r with
        | [] => [[c]]
        | h :: t => (c :: h) :: t

/-- Python `s.strip()`. -/
def stripCh (l : List Char) : List Char :=
  (((l.dropWhile isSpaceCh).reverse).dropWhile isSpaceCh).reverse

/-- Integer value of a digit run (most significant first). -/
def digitsVal (l : List Char) : Nat := l.foldl (fun a c => a * 10 + (c.toNat - 48)) 0

/-- Python `float(s)` restricted to the plain decimal literals that appear in
module time estimates: optional sign, digits, at most one decimal point
(with at least one digit overall).  Returns `none` where Python raises
`ValueError`. -/
def pyFloat? (l : List Char) : Option Rat :=
  let sg : Rat := if l.head? = some '-' then -1 else 1
  let body : List Char :=
    if l.head? = some '-' || l.head? = some '+' then l.tail else l
  match splitOnCh '.' body with
  | [ip] =>
      if ip.isEmpty then none
      else if ip.all Char.isDigit then some (sg * (digitsVal ip : Rat))
      else none
  | [ip, fp] =>
      if ip.isEmpty && fp.isEmpty then none
      else if ip.all Char.isDigit && fp.all Char.isDigit then
        some (sg * ((digitsVal ip : Rat) + (digitsVal fp : Rat) / ((10 : Rat) ^ fp.length)))
      else none
  | _ => none

/-! ## Time-estimate string parsing

Embeds the per-module parsing loop of `_calculate_completion_estimates`
(user_profile.py lines 380-408).  The Python code initialises `hours = 0`,
tries the dash / "hour" / "minute" branches inside a
`try ... except (ValueError, IndexError): hours = 1.0` block, and — crucially
— leaves `hours` at `0` when no branch matches (the `except` only fires for
parse errors raised inside a branch). -/

def hourChars : List Char := ['h', 'o', 'u', 'r']
def minuteChars : List Char := ['m', 'i', 'n', 'u', 't', 'e']

def hasDash (s : String) : Bool := occursIn ['-'] s.toList
def hasHourWord (s : String) : Bool := occursIn hourChars s.toList
def hasMinuteWord (s : String) : Bool := occursIn minuteChars s.toList

/-- First whitespace-delimited token of `s`, i.e. Python `s.split()[0]`
(`none` where Python would raise `IndexError`). -/
def firstToken (s : String) : Option (List Char) := (wsplit s.toList).head?

/-- Hours denoted by one module's `estimated_time` string, following
user_profile.py lines 384-406 exactly. -/
def parseTimeStr (s : String) : Rat :=
  let cs := s.toList
  if occursIn ['-'] cs then
    match wsplit cs with
    | [] => 1
    | tok :: _ =>
        match splitOnCh '-' tok with
        | a :: b :: _ =>
            match pyFloat? (stripCh a), pyFloat? (stripCh b) with
            | some lo, some hi => (lo + hi) / 2
            | _, _ => 1
        | _ => 1
  else if occursIn hourChars cs then
    match wsplit cs with
    | [] => 1
    | tok :: _ => (pyFloat? tok).getD 1
  else if occursIn minuteChars cs then
    match wsplit cs with
    | [] => 1
    | tok :: _ =>
        match pyFloat? tok with
        | some v => v / 60
        | none => 1
  else 0

/-! ## Data model

Shallow embedding of the in-memory `self.profile` dictionary of the Python
`UserProfile` class (user_profile.py lines 138-177).  Python dicts become
association lists, nested dicts become nested association lists, and the
two completed-sets are plain lists with manual uniqueness checks, exactly as
in the source.  Scores and hour budgets are rationals; timestamps are
abstract naturals supplied by the caller; ISO dates are rational day
numbers. -/

/-- One module of a learning path: an ordered topic list plus the free-text
`estimated_time` field (`none` models a missing dictionary key, which the
source defaults to the string `"0 hours"`). -/
structure PathModule where
  topics : List String
  estimated_time : Option String
deriving DecidableEq

/-- A learning path: its ordered module list (`path_data["modules"]`). -/
structure PathData where
  modules : List PathModule
deriving DecidableEq

/-- One per-path progress record (user_profile.py lines 247-253). -/
structure ProgressRecord where
  current_module : Nat
  current_topic : Nat
  completed_modules : List Nat
  completed_topics : List String
  last_accessed : Nat
deriving DecidableEq

/-- One stored quiz result (user_profile.py lines 290-294). -/
structure QuizResult where
  score : Rat
  passed : Bool
  timestamp : Nat
deriving DecidableEq

/-- Daily/weekly hour budget (`preferences["time_constraints"]`). -/
structure TimeConstraints where
  daily_hours : Rat
  weekly_hours : Rat
  target_completion_date : Option String
deriving DecidableEq

/-- One completion estimate (user_profile.py lines 424-429). -/
structure EstimateRecord where
  total_hours : Rat
  days_needed : Rat
  estimated_completion : Rat
  effective_daily_hours : Rat
deriving DecidableEq

/-- One timeline milestone (user_profile.py lines 359-363). -/
structure Milestone where
  date : Nat
  description : String
  path_id : String
deriving DecidableEq

/-- `preferences["timeline"]`. -/
structure Timeline where
  start_date : Option Rat
  milestones : List Milestone
  completion_estimates : List (String × EstimateRecord)
deriving DecidableEq

/-- `self.profile["preferences"]`. -/
structure Preferences where
  difficulty : String
  learning_style : String
  learning_level : String
  time_constraints : TimeConstraints
  timeline : Timeline
deriving DecidableEq

/-- The full in-memory profile dictionary. -/
structure Profile where
  learning_paths : List (String × PathData)
  progress : List (String × ProgressRecord)
  quiz_results : List (String × List (String × QuizResult))
  preferences : Preferences
deriving DecidableEq

/-- The spec's abstract names for the Python exceptions the subsystem can
raise: `notFound` is a `KeyError` on a missing `path_id`, `bounds` an
`IndexError` on a module list, and `invalidConfig` the `ZeroDivisionError`
hit when `effective_daily_hours` is zero. -/
inductive ProfileError where
  | notFound
  | bounds
  | invalidConfig
deriving DecidableEq

/-- Does an `Except` computation finish without raising? -/
def exceptOk {ε α : Type} : Except ε α → Bool
  | .ok _ => true
  | .error _ => false

/-- The error raised by an `Except` computation, if any. -/
def errorOf {ε α : Type} : Except ε α → Option ε
  | .ok _ => none
  | .error e => some e

/-- The default preferences assigned to a freshly created user
(user_profile.py lines 147-160). -/
def defaultPreferences : Preferences :=
  { difficulty := "medium"
    learning_style := "visual"
    learning_level := "intermediate"
    time_constraints := { daily_hours := 2, weekly_hours := 10, target_completion_date := none }
    timeline := { start_date := none, milestones := [], completion_estimates := [] } }

/-! ## Operations -/

/-- The composite topic key `f"{module_index}_{topic_index}"`. -/
def topicId (mi ti : Nat) : String := toString mi ++ "_" ++ toString ti

/-- `add_learning_path` (user_profile.py lines 245-254): stores the path
data and a fresh progress record at module 0 / topic 0 with empty
completed lists.  Note that an existing `path_id` is overwritten, progress
record included. -/
def add_learning_path (p : Profile) (path_id : String) (pd : PathData) (now : Nat) : Profile :=
  { p with
    learning_paths := aupsert p.learning_paths path_id pd
    progress := aupsert p.progress path_id
      { current_module := 0, current_topic := 0, completed_modules := [],
        completed_topics := [], last_accessed := now } }

/-- `update_progress` (user_profile.py lines 256-283).  With
`completed = true` it appends the topic id if absent, then scans every
topic index of the module against the updated list, appends the module
index when all are present and it is not already recorded, and advances
`current_module`/`current_topic` only when a next module exists.  With
`completed = false` it just moves the current position.  `topic_index` is
never bounds-checked (it is only interpolated into the topic id);
`module_index` is bounds-checked only on the `completed = true` branch. -/
def update_progress (p : Profile) (path_id : String) (mi ti : Nat) (completed : Bool)
    (now : Nat) : Except ProfileError Profile :=
  if completed then
    match alookup p.progress path_id with
    | none => .error .notFound
    | some pr =>
        let ct :=
          if topicId mi ti ∈ pr.completed_topics then pr.completed_topics
          else pr.completed_topics ++ [topicId mi ti]
        match alookup p.learning_paths path_id with
        | none => .error .notFound
        | some pd =>
            match pd.modules.get? mi with
            | none => .error .bounds
            | some md =>
                if (∀ i, i < md.topics.length → topicId mi i ∈ ct) ∧
                    mi ∉ pr.completed_modules then
                  let pr' : ProgressRecord :=
                    { pr with
                        completed_topics := ct
                        completed_modules := pr.completed_modules ++ [mi] }
                  let pr'' :=
                    if mi + 1 < pd.modules.length then
                      { pr' with current_module := mi + 1, current_topic := 0 }
                    else pr'
                  .ok { p with
                          progress := aupsert p.progress path_id
                            { pr'' with last_accessed := now } }
                else
                  .ok { p with
                          progress := aupsert p.progress path_id
                            { pr with completed_topics := ct, last_accessed := now } }
  else
    match alookup p.progress path_id with
    | none => .error .notFound
    | some pr =>
        .ok { p with
                progress := aupsert p.progress path_id
                  { pr with current_module := mi, current_topic := ti, last_accessed := now } }

/-- `record_quiz_result` (user_profile.py lines 285-300): upserts the
result with `passed = score >= 70`, then delegates to `update_progress`
with `completed = true` exactly when passed. -/
def record_quiz_result (p : Profile) (path_id : String) (mi ti : Nat) (score : Rat)
    (now : Nat) : Except ProfileError Profile :=
  let tid := topicId mi ti
  let m := (alookup p.quiz_results path_id).getD []
  let m' := aupsert m tid { score := score, passed := decide (70 ≤ score), timestamp := now }
  let p1 := { p with quiz_results := aupsert p.quiz_results path_id m' }
  if 70 ≤ score then update_progress p1 path_id mi ti true now else .ok p1

/-- The summary dictionary returned by `get_learning_path_progress`
(user_profile.py lines 313-322). -/
structure PathSummary where
  total_modules : Nat
  completed_modules : Nat
  total_topics : Nat
  completed_topics : Nat
  percentage_complete : Rat
  current_module : Nat
  current_topic : Nat
  last_accessed : Nat
deriving DecidableEq

/-- `get_learning_path_progress` (user_profile.py lines 302-322): `none`
when no progress record exists; a `notFound` error (Python `KeyError`) when
progress exists but the path data does not; otherwise the summary, with the
percentage guarded against a zero topic count. -/
def get_learning_path_progress (p : Profile) (path_id : String) :
    Except ProfileError (Option PathSummary) :=
  match alookup p.progress path_id with
  | none => .ok none
  | some pr =>
      match alookup p.learning_paths path_id with
      | none => .error .notFound
      | some pd =>
          let tt := (pd.modules.map (fun md => md.topics.length)).sum
          let ctc := pr.completed_topics.length
          .ok (some
            { total_modules := pd.modules.length
              completed_modules := pr.completed_modules.length
              total_topics := tt
              completed_topics := ctc
              percentage_complete := if 0 < tt then (ctc : Rat) / (tt : Rat) * 100 else 0
              current_module := pr.current_module
              current_topic := pr.current_topic
              last_accessed := pr.last_accessed })

/-- Hours denoted by one module, with the source's `"0 hours"` default for a
missing `estimated_time` key (user_profile.py line 384). -/
def moduleHours (md : PathModule) : Rat := parseTimeStr (md.estimated_time.getD "0 hours")

/-- The summed time estimate of a path (user_profile.py lines 381-408). -/
def totalHours (pd : PathData) : Rat := (pd.modules.map moduleHours).sum

/-- `_calculate_completion_estimates` (user_profile.py lines 368-431).
Returns the profile unchanged when the path or the start date is missing
(the two early `return`s); raises where Python raises `ZeroDivisionError`
at `total_hours / effective_daily_hours`, i.e. exactly when
`effective_daily_hours == 0`; otherwise stores the estimate record. -/
def calculate_completion_estimates (p : Profile) (path_id : String) :
    Except ProfileError Profile :=
  match alookup p.learning_paths path_id with
  | none => .ok p
  | some pd =>
      match p.preferences.timeline.start_date with
      | none => .ok p
      | some sd =>
          let th := totalHours pd
          let dh := p.preferences.time_constraints.daily_hours
          let wh := p.preferences.time_constraints.weekly_hours
          let edh := min dh (wh / 7)
          if edh = 0 then .error .invalidConfig
          else
            let days := th / edh
            let est : EstimateRecord :=
              { total_hours := th, days_needed := days,
                estimated_completion := sd + days, effective_daily_hours := edh }
            .ok { p with
                    preferences := { p.preferences with
                      timeline := { p.preferences.timeline with
                        completion_estimates :=
                          aupsert p.preferences.timeline.completion_estimates path_id est } } }

/-- `update_timeline` (user_profile.py lines 347-366): `false` (and no
change) when the path has no progress record; otherwise sets the start
date and recomputes estimates when a start date is given, and appends a
milestone when a non-empty description is given (Python string
truthiness). -/
def update_timeline (p : Profile) (path_id : String) (start_date : Option Rat)
    (milestone : Option String) (now : Nat) : Except ProfileError (Bool × Profile) :=
  match alookup p.progress path_id with
  | none => .ok (false, p)
  | some _ =>
      let p1 :=
        match start_date with
        | some sd =>
            { p with
                preferences := { p.preferences with
                  timeline := { p.preferences.timeline with start_date := some sd } } }
        | none => p
      match (if start_date.isSome then calculate_completion_estimates p1 path_id
             else .ok p1) with
      | .error e => .error e
      | .ok p2 =>
          let p3 :=
            match milestone with
            | some desc =>
                if desc.isEmpty then p2
                else
                  { p2 with
                      preferences := { p2.preferences with
                        timeline := { p2.preferences.timeline with
                          milestones := p2.preferences.timeline.milestones ++
                            [{ date := now, description := desc, path_id := path_id }] } } }
            | none => p2
          .ok (true, p3)

/-- `update_preferences` (user_profile.py lines 324-345).  The
`if value:` guards use Python truthiness: an empty string is skipped like
`None`; the hour budgets use `is not None` and so accept zero. -/
def update_preferences (p : Profile) (learning_level : Option String)
    (daily_hours weekly_hours : Option Rat) (target_completion_date : Option String) :
    Profile :=
  let prefs0 := p.preferences
  let prefs1 :=
    match learning_level with
    | some lv => if lv.isEmpty then prefs0 else { prefs0 with learning_level := lv }
    | none => prefs0
  let prefs2 :=
    match daily_hours with
    | some dhv =>
        { prefs1 with time_constraints := { prefs1.time_constraints with daily_hours := dhv } }
    | none => prefs1
  let prefs3 :=
    match weekly_hours with
    | some whv =>
        { prefs2 with time_constraints := { prefs2.time_constraints with weekly_hours := whv } }
    | none => prefs2
  let prefs4 :=
    match target_completion_date with
    | some d =>
        if d.isEmpty then prefs3
        else
          { prefs3 with
              time_constraints := { prefs3.time_constraints with
                target_completion_date := some d } }
    | none => prefs3
  { p with preferences := prefs4 }

/-! ## Database model

The four SQLite tables (user_profile.py lines 36-86), modelled as
association lists whose keys carry the UNIQUE constraints of the schema:
`users` is keyed by `user_id`, `learning_paths` and `progress` by
`(user_id, path_id)`, and `quiz_results` by `(user_id, (path_id,
topic_id))`.  `INSERT OR REPLACE` is `aupsert`; a plain SQL `UPDATE` of a
missing row changes nothing. -/

/-- A `users` table row. -/
structure UserRow where
  preferences : Preferences
  created_at : Nat
  updated_at : Nat
deriving DecidableEq

/-- The whole database. -/
structure DB where
  users : List (String × UserRow)
  learning_paths : List ((String × String) × PathData)
  progress : List ((String × String) × ProgressRecord)
  quiz_results : List ((String × (String × String)) × QuizResult)
deriving DecidableEq

/-- Upsert each of `entries` for user `uid` into a table keyed by
`(user_id, sub-key)`; the shape of every per-table loop in
`save_profile`. -/
def saveTable {β α : Type} [DecidableEq β] (db : List ((String × β) × α)) (uid : String)
    (entries : List (β × α)) : List ((String × β) × α) :=
  entries.foldl (fun acc e => aupsert acc (uid, e.1) e.2) db

/-- `save_profile` (user_profile.py lines 179-230): `UPDATE` of the user
row's preferences (a no-op when the row is missing), then `INSERT OR
REPLACE` of every learning-path, progress and quiz-result entry of the
in-memory profile.  Rows not present in the profile are left alone. -/
def save_profile (db : DB) (uid : String) (p : Profile) (now : Nat) : DB :=
  let users' :=
    match alookup db.users uid with
    | some row => aupsert db.users uid { row with preferences := p.preferences, updated_at := now }
    | none => db.users
  { users := users'
    learning_paths := saveTable db.learning_paths uid p.learning_paths
    progress := saveTable db.progress uid p.progress
    quiz_results :=
      p.quiz_results.foldl
        (fun acc pe => saveTable acc uid (pe.2.map (fun te => ((pe.1, te.1), te.2)))) db.quiz_results }

/-- The rows of a `(user_id, sub-key)`-keyed table belonging to `uid`, as a
sub-key-indexed association list; the shape of every per-table `SELECT ...
WHERE user_id = ?` in `_load_profile`. -/
def userTable {β α : Type} (db : List ((String × β) × α)) (uid : String) : List (β × α) :=
  db.filterMap (fun e => if e.1.1 = uid then some (e.1.2, e.2) else none)

/-- One step of the quiz-result grouping loop of `_load_profile`
(user_profile.py lines 128-136): `if path_id not in quiz_results:
quiz_results[path_id] = ...` followed by the topic assignment. -/
def groupQuizStep (acc : List (String × List (String × QuizResult)))
    (r : (String × String) × QuizResult) : List (String × List (String × QuizResult)) :=
  match alookup acc r.1.1 with
  | none => acc ++ [(r.1.1, [(r.1.2, r.2)])]
  | some m => aupsert acc r.1.1 (aupsert m r.1.2 r.2)

/-- The quiz-result grouping loop of `_load_profile`: fold the user's
result rows into a path-indexed dict of topic-indexed dicts. -/
def groupQuiz (rows : List ((String × String) × QuizResult)) :
    List (String × List (String × QuizResult)) :=
  rows.foldl groupQuizStep []

/-- `_load_profile` (user_profile.py lines 90-177): when the user row
exists, rebuild the profile from the user's rows; otherwise insert a fresh
user row with default preferences and return an empty profile. -/
def load_profile (db : DB) (uid : String) (now : Nat) : Profile × DB :=
  match alookup db.users uid with
  | some row =>
      ({ learning_paths := userTable db.learning_paths uid
         progress := userTable db.progress uid
         quiz_results := groupQuiz (userTable db.quiz_results uid)
         preferences := row.preferences }, db)
  | none =>
      ({ learning_paths := [], progress := [], quiz_results := [],
         preferences := defaultPreferences },
       { db with
           users := aupsert db.users uid
             { preferences := defaultPreferences, created_at := now, updated_at := now } })

/-! ## The core operations as a single step relation (for the
monotonicity claim). -/

/-- One mutating core operation. -/
inductive ProfileOp where
  | addPath (path_id : String) (pd : PathData)
  | updateProg (path_id : String) (mi ti : Nat) (completed : Bool)
  | recordQuiz (path_id : String) (mi ti : Nat) (score : Rat)
  | setTimeline (path_id : String) (start_date : Option Rat) (milestone : Option String)
  | setPrefs (learning_level : Option String) (daily_hours weekly_hours : Option Rat)
      (target_completion_date : Option String)
  | calcEstimates (path_id : String)

/-- Apply one core operation to a profile. -/
def applyOp (p : Profile) (op : ProfileOp) (now : Nat) : Except ProfileError Profile :=
  match op with
  | .addPath pid pd => .ok (add_learning_path p pid pd now)
  | .updateProg pid mi ti c => update_progress p pid mi ti c now
  | .recordQuiz pid mi ti s => record_quiz_result p pid mi ti s now
  | .setTimeline pid sd ms => (update_timeline p pid sd ms now).map Prod.snd
  | .setPrefs lv dh wh tcd => .ok (update_preferences p lv dh wh tcd)
  | .calcEstimates pid => calculate_completion_estimates p pid

/-- The completed-topics list a profile records for a path (empty when the
path has no progress record). -/
def completedTopicsOf (p : Profile) (path_id : String) : List String :=
  ((alookup p.progress path_id).map (fun pr => pr.completed_topics)).getD []

/-- The completed-modules list a profile records for a path. -/
def completedModulesOf (p : Profile) (path_id : String) : List Nat :=
  ((alookup p.progress path_id).map (fun pr => pr.completed_modules)).getD []

/-- All valid topic ids of a module list, starting at module index `k`. -/
def validTopicIdsFrom : Nat → List PathModule → List String
  | _, [] => []
  | k, md :: rest =>
      (List.range md.topics.length).map (fun t => topicId k t) ++ validTopicIdsFrom (k + 1) rest

/-- All valid topic ids of a path. -/
def validTopicIds (pd : PathData) : List String := validTopicIdsFrom 0 pd.modules

/-! ## Concrete fixtures used by witnesses and counterexamples -/

/-- A fresh profile as `_load_profile` creates it for a new user. -/
def emptyProfile : Profile :=
  { learning_paths := [], progress := [], quiz_results := [], preferences := defaultPreferences }

/-- A module with two topics estimated at two hours. -/
def exModule : PathModule := { topics := ["t0", "t1"], estimated_time := some "2 hours" }

/-- A path with two modules of two topics each. -/
def exPath : PathData := { modules := [exModule, exModule] }

/-- Progress on `exPath` with topic `0_0` already completed. -/
def exProgressPre : ProgressRecord :=
  { current_module := 0, current_topic := 0, completed_modules := [],
    completed_topics := ["0_0"], last_accessed := 0 }

/-- A profile holding `exPath` under `"p"` with topic `0_0` completed. -/
def exProfilePre : Profile :=
  { learning_paths := [("p", exPath)], progress := [("p", exProgressPre)],
    quiz_results := [], preferences := defaultPreferences }

deriving instance DecidableEq for Except

/-- The per-topic quiz results a profile stores for a path. -/
def quizTopicsOf (p : Profile) (path_id : String) : List (String × QuizResult) :=
  (alookup p.quiz_results path_id).getD []

/-- Nested lookup in a two-level association list (Python
`d[k1][k2]` read through `.get`). -/
def alookup2 {α : Type} (l : List (String × List (String × α))) (k1 k2 : String) : Option α :=
  (alookup l k1).bind (fun m => alookup m k2)

/-- The current module recorded for a path. -/
def currentModuleOf (p : Profile) (path_id : String) : Option Nat :=
  (alookup p.progress path_id).map (fun pr => pr.current_module)

/-- The current topic recorded for a path. -/
def currentTopicOf (p : Profile) (path_id : String) : Option Nat :=
  (alookup p.progress path_id).map (fun pr => pr.current_topic)

theorem alookup_some_mem {κ α : Type} [DecidableEq κ] (l : List (κ × α)) (k : κ) (v : α)
    (h : alookup l k = some v) : (k, v) ∈ l := by
  induction l with
  | nil => simp at h
  | cons hd t ih =>
      obtain ⟨k0, v0⟩ := hd
      rw [alookup_cons] at h
      by_cases hk : k0 = k
      · rw [if_pos hk] at h
        injection h with h
        subst hk; subst h
        exact List.mem_cons_self _ _
      · rw [if_neg hk] at h
        exact List.mem_cons_of_mem _ (ih h)

/-- `update_progress` never touches the other three profile fields. -/
theorem update_progress_frame (p : Profile) (pid : String) (mi ti : Nat) (c : Bool) (now : Nat)
    (p' : Profile) (h : update_progress p pid mi ti c now = .ok p') :
    p'.learning_paths = p.learning_paths ∧ p'.quiz_results = p.quiz_results ∧
      p'.preferences = p.preferences := by
  simp only [update_progress] at h
  repeat' split at h
  all_goals first
    | exact Except.noConfusion h
    | (injection h with h; subst h; exact ⟨rfl, rfl, rfl⟩)

/-- `update_progress` only ever extends the completed-topic and
completed-module lists, on every path. -/
theorem update_progress_mono (p : Profile) (pid : String) (mi ti : Nat) (c : Bool) (now : Nat)
    (p' : Profile) (h : update_progress p pid mi ti c now = .ok p') (q : String) :
    completedTopicsOf p q ⊆ completedTopicsOf p' q ∧
      completedModulesOf p q ⊆ completedModulesOf p' q := by
  by_cases hq : pid = q
  · subst hq
    simp only [update_progress] at h
    repeat' split at h
    all_goals first
      | exact Except.noConfusion h
      | (injection h with h; subst h;
         rename_i hcond hpr hrest
         constructor <;>
           simp_all [completedTopicsOf, completedModulesOf, alookup_aupsert_self] <;>
           first
             | exact fun a ha => ha
             | (intro a ha; first
                 | exact ha
                 | exact List.mem_append_left _ ha
                 | (split <;> first
                     | exact ha
                     | exact List.mem_append_left _ ha
                     | exact List.mem_append_left _ (List.mem_append_left _ ha))))
  · have hlook : alookup p'.progress q = alookup p.progress q := by
      simp only [update_progress] at h
      repeat' split at h
      all_goals first
        | exact Except.noConfusion h
        | (injection h with h; subst h;
           exact alookup_aupsert_ne _ _ _ _ hq)
    constructor <;> simp [completedTopicsOf, completedModulesOf, hlook] <;>
      exact fun a ha => ha

/-- `_calculate_completion_estimates` only writes
`preferences.timeline.completion_estimates`. -/
theorem calculate_completion_estimates_frame (p : Profile) (pid : String) (p' : Profile)
    (h : calculate_completion_estimates p pid = .ok p') :
    p'.progress = p.progress ∧ p'.learning_paths = p.learning_paths ∧
      p'.quiz_results = p.quiz_results := by
  simp only [calculate_completion_estimates] at h
  repeat' split at h
  all_goals first
    | exact Except.noConfusion h
    | (injection h with h; subst h; exact ⟨rfl, rfl, rfl⟩)

/-- `update_timeline` never touches progress, paths or quiz results. -/
theorem update_timeline_frame (p : Profile) (pid : String) (sd : Option Rat)
    (ms : Option String) (now : Nat) (b : Bool) (p' : Profile)
    (h : update_timeline p pid sd ms now = .ok (b, p')) :
    p'.progress = p.progress ∧ p'.learning_paths = p.learning_paths ∧
      p'.quiz_results = p.quiz_results := by
  simp only [update_timeline] at h
  split at h
  · injection h with h
    injection h with h1 h2
    subst h2
    exact ⟨rfl, rfl, rfl⟩
  · rename_i pr hpr
    split at h
    · exact Except.noConfusion h
    · rename_i p2 hp2
      have hfp2 : p2.progress = p.progress ∧ p2.learning_paths = p.learning_paths ∧
          p2.quiz_results = p.quiz_results := by
        cases sd with
        | none =>
            rw [if_neg (by simp)] at hp2
            injection hp2 with hp2
            subst hp2
            exact ⟨rfl, rfl, rfl⟩
        | some v =>
            rw [if_pos (by simp)] at hp2
            have hf := calculate_completion_estimates_frame _ _ _ hp2
            exact ⟨hf.1, hf.2.1, hf.2.2⟩
      injection h with h
      injection h with h1 h2
      subst h2
      cases ms with
      | none => exact hfp2
      | some desc =>
          by_cases hd : desc.isEmpty = true
          · simp only [hd, if_pos]
            exact hfp2
          · simp only [if_neg hd]
            exact ⟨hfp2.1, hfp2.2.1, hfp2.2.2⟩

/-! ## Lemmas about the persistence layer -/

theorem alookup_saveTable {β α : Type} [DecidableEq β] (db : List ((String × β) × α))
    (uid : String) (entries : List (β × α)) (hnd : (akeys entries).Nodup) (b : β) :
    alookup (saveTable db uid entries) (uid, b) =
      match alookup entries b with
      | some v => some v
      | none => alookup db (uid, b) := by
  induction entries generalizing db with
  | nil => simp [saveTable]
  | cons e t ih =>
      obtain ⟨k, v⟩ := e
      simp only [akeys, List.map_cons, List.nodup_cons] at hnd
      have step := ih (aupsert db (uid, k) v) hnd.2
      simp only [saveTable, List.foldl_cons] at step ⊢
      rw [step]
      by_cases hb : k = b
      · subst hb
        have ht : alookup t k = none :=
          alookup_eq_none_of_not_mem_akeys _ _ (by simpa [akeys] using hnd.1)
        rw [ht, alookup_cons, if_pos rfl, alookup_aupsert_self]
      · rw [alookup_cons, if_neg hb]
        cases hlt : alookup t b with
        | none =>
            rw [alookup_aupsert_ne _ _ _ _ (by simp [Prod.mk.injEq, hb])]
        | some w => rfl

theorem nodup_akeys_saveTable {β α : Type} [DecidableEq β] (db : List ((String × β) × α))
    (uid : String) (entries : List (β × α)) (hdb : (akeys db).Nodup) :
    (akeys (saveTable db uid entries)).Nodup := by
  induction entries generalizing db with
  | nil => exact hdb
  | cons e t ih => exact ih _ (nodup_akeys_aupsert _ _ _ hdb)

theorem alookup_userTable {β α : Type} [DecidableEq β] (db : List ((String × β) × α))
    (uid : String) (b : β) :
    alookup (userTable db uid) b = alookup db (uid, b) := by
  induction db with
  | nil => rfl
  | cons e t ih =>
      obtain ⟨⟨u, k⟩, v⟩ := e
      by_cases hu : u = uid
      · subst hu
        have hstep : userTable (((u, k), v) :: t) u = (k, v) :: userTable t u := by
          simp [userTable, List.filterMap_cons]
        rw [hstep]
        by_cases hk : k = b
        · subst hk
          rw [alookup_cons, if_pos rfl, alookup_cons, if_pos rfl]
        · rw [alookup_cons, if_neg hk, ih, alookup_cons,
            if_neg (by simp [Prod.mk.injEq, hk])]
      · have hstep : userTable (((u, k), v) :: t) uid = userTable t uid := by
          simp [userTable, List.filterMap_cons, hu]
        rw [hstep, ih, alookup_cons, if_neg (by simp [Prod.mk.injEq, hu])]

theorem mem_akeys_userTable {β α : Type} (db : List ((String × β) × α)) (uid : String) (b : β)
    (h : b ∈ akeys (userTable db uid)) : (uid, b) ∈ akeys db := by
  induction db with
  | nil => simp [userTable, akeys] at h
  | cons e t ih =>
      obtain ⟨⟨u, k⟩, v⟩ := e
      by_cases hu : u = uid
      · subst hu
        have hstep : userTable (((u, k), v) :: t) u = (k, v) :: userTable t u := by
          simp [userTable, List.filterMap_cons]
        rw [hstep] at h
        simp only [akeys, List.map_cons, List.mem_cons] at h ⊢
        rcases h with h | h
        · exact Or.inl (by rw [h])
        · exact Or.inr (ih h)
      · have hstep : userTable (((u, k), v) :: t) uid = userTable t uid := by
          simp [userTable, List.filterMap_cons, hu]
        rw [hstep] at h
        simp only [akeys, List.map_cons, List.mem_cons]
        exact Or.inr (ih h)

theorem nodup_akeys_userTable {β α : Type} (db : List ((String × β) × α)) (uid : String)
    (h : (akeys db).Nodup) : (akeys (userTable db uid)).Nodup := by
  induction db with
  | nil => simp [userTable, akeys]
  | cons e t ih =>
      obtain ⟨⟨u, k⟩, v⟩ := e
      simp only [akeys, List.map_cons, List.nodup_cons] at h
      by_cases hu : u = uid
      · subst hu
        have hstep : userTable (((u, k), v) :: t) u = (k, v) :: userTable t u := by
          simp [userTable, List.filterMap_cons]
        rw [hstep]
        simp only [akeys, List.map_cons, List.nodup_cons]
        exact ⟨fun hmem => h.1 (mem_akeys_userTable t _ k hmem), ih h.2⟩
      · have hstep : userTable (((u, k), v) :: t) uid = userTable t uid := by
          simp [userTable, List.filterMap_cons, hu]
        rw [hstep]
        exact ih h.2

theorem alookup_tagEntries (p0 : String) (m0 : List (String × QuizResult)) (pid tid : String) :
    alookup (m0.map (fun te => ((p0, te.1), te.2))) (pid, tid) =
      if p0 = pid then alookup m0 tid else none := by
  induction m0 with
  | nil => simp
  | cons te t ih =>
      obtain ⟨k, v⟩ := te
      simp only [List.map_cons, alookup_cons, ih]
      by_cases hp : p0 = pid
      · subst hp
        by_cases hk : k = tid
        · subst hk; simp
        · simp [hk]
      · simp [hp, Prod.mk.injEq]

theorem nodup_akeys_tagEntries (p0 : String) (m0 : List (String × QuizResult))
    (h : (akeys m0).Nodup) : (akeys (m0.map (fun te => ((p0, te.1), te.2)))).Nodup := by
  have heq : akeys (m0.map (fun te => ((p0, te.1), te.2))) =
      (akeys m0).map (fun k => (p0, k)) := by
    simp [akeys, List.map_map]
  rw [heq]
  exact h.map (fun a b hab => by simpa [Prod.mk.injEq] using hab)

theorem alookup2_foldl_groupQuizStep (rows : List ((String × String) × QuizResult))
    (acc : List (String × List (String × QuizResult))) (pid tid : String)
    (hnd : (akeys rows).Nodup) :
    alookup2 (rows.foldl groupQuizStep acc) pid tid =
      match alookup rows (pid, tid) with
      | some v => some v
      | none => alookup2 acc pid tid := by
  induction rows generalizing acc with
  | nil => simp
  | cons r rest ih =>
      obtain ⟨⟨p0, t0⟩, v0⟩ := r
      simp only [akeys, List.map_cons, List.nodup_cons] at hnd
      rw [List.foldl_cons, ih _ hnd.2]
      by_cases hp : p0 = pid
      · subst hp
        by_cases ht : t0 = tid
        · subst ht
          have hrest : alookup rest (p0, t0) = none :=
            alookup_eq_none_of_not_mem_akeys _ _ (by simpa [akeys] using hnd.1)
          rw [hrest, alookup_cons, if_pos rfl]
          cases hm : alookup acc p0 with
          | none =>
              simp only [groupQuizStep, hm]
              simp [alookup2, alookup_append, hm, alookup_cons]
          | some m =>
              simp only [groupQuizStep, hm]
              simp [alookup2, alookup_aupsert_self]
        · rw [alookup_cons, if_neg (by simp [Prod.mk.injEq, ht])]
          have hstep : alookup2 (groupQuizStep acc ((p0, t0), v0)) p0 tid =
              alookup2 acc p0 tid := by
            cases hm : alookup acc p0 with
            | none =>
                simp only [groupQuizStep, hm]
                simp [alookup2, alookup_append, hm, alookup_cons, ht]
            | some m =>
                simp only [groupQuizStep, hm]
                simp [alookup2, hm, alookup_aupsert_self,
                  alookup_aupsert_ne _ _ _ _ ht]
          rw [hstep]
      · rw [alookup_cons, if_neg (by simp [Prod.mk.injEq, hp])]
        have hstep : alookup2 (groupQuizStep acc ((p0, t0), v0)) pid tid =
            alookup2 acc pid tid := by
          cases hm : alookup acc p0 with
          | none =>
              simp only [groupQuizStep, hm]
              simp only [alookup2, alookup_append]
              cases hacc : alookup acc pid with
              | none => simp [alookup_cons, hp]
              | some m => simp
          | some m =>
              simp only [groupQuizStep, hm]
              simp [alookup2, alookup_aupsert_ne _ _ _ _ hp]
        rw [hstep]

theorem alookup2_groupQuiz (rows : List ((String × String) × QuizResult)) (pid tid : String)
    (hnd : (akeys rows).Nodup) :
    alookup2 (groupQuiz rows) pid tid = alookup rows (pid, tid) := by
  rw [groupQuiz, alookup2_foldl_groupQuizStep rows [] pid tid hnd]
  cases h : alookup rows (pid, tid) with
  | none => simp [alookup2]
  | some v => rfl

theorem alookup_saveQuiz (db : List ((String × (String × String)) × QuizResult)) (uid : String)
    (qrs : List (String × List (String × QuizResult))) (pid tid : String) :
    (akeys qrs).Nodup → (∀ pe ∈ qrs, (akeys pe.2).Nodup) →
    alookup
        (qrs.foldl
          (fun acc pe => saveTable acc uid (pe.2.map (fun te => ((pe.1, te.1), te.2)))) db)
        (uid, (pid, tid)) =
      match alookup2 qrs pid tid with
      | some v => some v
      | none => alookup db (uid, (pid, tid)) := by
  induction qrs generalizing db with
  | nil =>
      intro _ _
      simp [alookup2]
  | cons pe rest ih =>
      intro hnd hinner
      obtain ⟨p0, m0⟩ := pe
      simp only [akeys, List.map_cons, List.nodup_cons] at hnd
      have hm0 : (akeys m0).Nodup := hinner (p0, m0) (List.mem_cons_self _ _)
      have hinner2 : ∀ pe ∈ rest, (akeys pe.2).Nodup :=
        fun pe hpe => hinner pe (List.mem_cons_of_mem _ hpe)
      rw [List.foldl_cons, ih _ (by simpa [akeys] using hnd.2) hinner2]
      have hsave := alookup_saveTable db uid (m0.map (fun te => ((p0, te.1), te.2)))
        (nodup_akeys_tagEntries p0 m0 hm0) (pid, tid)
      by_cases hp : p0 = pid
      · subst hp
        have hrest : alookup rest p0 = none :=
          alookup_eq_none_of_not_mem_akeys _ _ (by simpa [akeys] using hnd.1)
        have hl2 : alookup2 rest p0 tid = none := by simp [alookup2, hrest]
        rw [hl2]
        have hcons : alookup2 ((p0, m0) :: rest) p0 tid = alookup m0 tid := by
          simp [alookup2, alookup_cons]
        rw [hcons, hsave, alookup_tagEntries, if_pos rfl]
        cases hmt : alookup m0 tid with
        | none => rfl
        | some v => rfl
      · have hcons : alookup2 ((p0, m0) :: rest) pid tid = alookup2 rest pid tid := by
          simp [alookup2, alookup_cons, hp]
        rw [hcons]
        cases hr : alookup2 rest pid tid with
        | some v => rfl
        | none =>
            rw [hsave, alookup_tagEntries, if_neg hp]

/-! ## Claims -/

/-- C1 (counterexample).  The claim states that a time string that matches
neither the dash, "hour" nor "minute" branch parses to 1.0 hour, with
`"garbage"` as its own example.  The code leaves the initialised `hours = 0`
in place for such strings — the `except` default of 1.0 only fires for a
`ValueError`/`IndexError` raised inside a matched branch — so
`"garbage"` parses to 0, not 1. -/
theorem parseTimeStr_garbage_ne_one :
    parseTimeStr "garbage" = 0 ∧ parseTimeStr "garbage" ≠ 1 := by
  have h : parseTimeStr "garbage" = 0 := by
    simp [parseTimeStr, pyFloat?, wsplit, wsplitGo, splitOnCh, occursIn, leadsWith, stripCh,
      digitsVal, isSpaceCh, hourChars, minuteChars]
  exact ⟨h, by rw [h]; norm_num⟩

/-- C1 (amended).  The documented parsing policy holds except in the
default case: a string containing `-` averages the two dash-separated
bounds of its first whitespace token (1.0 on any parse failure inside the
branch); otherwise a string containing `hour` parses its first token as
float hours (1.0 on failure); otherwise a string containing `minute`
parses its first token divided by 60 (1.0 on failure); and a string
matching none of the three branches yields 0.0 — not the claimed 1.0.
Parsing never throws: `parseTimeStr` is a total function. -/
theorem parseTimeStr_policy :
    (∀ s : String, hasDash s = false → hasHourWord s = false → hasMinuteWord s = false →
        parseTimeStr s = 0)
    ∧ (∀ s : String, hasDash s = false → hasHourWord s = true →
        parseTimeStr s = ((firstToken s).bind pyFloat?).getD 1)
    ∧ (∀ s : String, hasDash s = false → hasHourWord s = false → hasMinuteWord s = true →
        parseTimeStr s = (((firstToken s).bind pyFloat?).map (fun v => v / 60)).getD 1)
    ∧ (∀ (s : String) (tok a b : List Char) (rest : List (List Char)) (lo hi : Rat),
        hasDash s = true → firstToken s = some tok → splitOnCh '-' tok = a :: b :: rest →
        pyFloat? (stripCh a) = some lo → pyFloat? (stripCh b) = some hi →
        parseTimeStr s = (lo + hi) / 2)
    ∧ parseTimeStr "2 hours" = 2 ∧ parseTimeStr "30 minutes" = 1 / 2
    ∧ parseTimeStr "6-8 hours" = 7 ∧ parseTimeStr "garbage" = 0
    ∧ parseTimeStr "x-y hours" = 1 := by
  refine ⟨?_, ?_, ?_, ?_, ?_, ?_, ?_, ?_, ?_⟩
  · intro s h1 h2 h3
    simp only [hasDash, String.toList] at h1
    simp only [hasHourWord, String.toList] at h2
    simp only [hasMinuteWord, String.toList] at h3
    simp [parseTimeStr, String.toList, h1, h2, h3]
  · intro s h1 h2
    simp only [hasDash, String.toList] at h1
    simp only [hasHourWord, String.toList] at h2
    simp only [parseTimeStr, String.toList, h1, h2, Bool.false_eq_true, if_false, if_true]
    cases hw : wsplit s.data with
    | nil => simp [firstToken, String.toList, hw]
    | cons tok rest => simp [firstToken, String.toList, hw]
  · intro s h1 h2 h3
    simp only [hasDash, String.toList] at h1
    simp only [hasHourWord, String.toList] at h2
    simp only [hasMinuteWord, String.toList] at h3
    simp only [parseTimeStr, String.toList, h1, h2, h3, Bool.false_eq_true, if_false, if_true]
    cases hw : wsplit s.data with
    | nil => simp [firstToken, String.toList, hw]
    | cons tok rest =>
        simp only [firstToken, String.toList, hw, List.head?]
        cases hp : pyFloat? tok <;> simp [hp]
  · intro s tok a b rest lo hi h1 htok hsplit hlo hhi
    simp only [hasDash, String.toList] at h1
    simp only [parseTimeStr, String.toList, h1, if_true]
    simp only [firstToken, String.toList] at htok
    cases hw : wsplit s.data with
    | nil => rw [hw] at htok; simp at htok
    | cons tok0 rest0 =>
        rw [hw] at htok
        simp only [List.head?] at htok
        injection htok with htok
        subst htok
        simp only [hw]
        simp only [hsplit, hlo, hhi]
  · simp [parseTimeStr, pyFloat?, wsplit, wsplitGo, splitOnCh, occursIn, leadsWith, stripCh,
      digitsVal, isSpaceCh, hourChars, minuteChars]
  · simp [parseTimeStr, pyFloat?, wsplit, wsplitGo, splitOnCh, occursIn, leadsWith, stripCh,
      digitsVal, isSpaceCh, hourChars, minuteChars]
    norm_num
  · simp [parseTimeStr, pyFloat?, wsplit, wsplitGo, splitOnCh, occursIn, leadsWith, stripCh,
      digitsVal, isSpaceCh, hourChars, minuteChars]
    norm_num
  · simp [parseTimeStr, pyFloat?, wsplit, wsplitGo, splitOnCh, occursIn, leadsWith, stripCh,
      digitsVal, isSpaceCh, hourChars, minuteChars]
  · simp [parseTimeStr, pyFloat?, wsplit, wsplitGo, splitOnCh, occursIn, leadsWith, stripCh,
      digitsVal, isSpaceCh, hourChars, minuteChars]

/-- C1 (witness for the amended policy): the hypothesised branch clauses
applied at concrete strings. -/
theorem parseTimeStr_policy_witness :
    parseTimeStr "garbage" = 0 ∧
    parseTimeStr "2 hours" = ((firstToken "2 hours").bind pyFloat?).getD 1 ∧
    parseTimeStr "30 minutes" =
      (((firstToken "30 minutes").bind pyFloat?).map (fun v => v / 60)).getD 1 ∧
    parseTimeStr "6-8 hours" = ((6 : Rat) + 8) / 2 :=
  ⟨parseTimeStr_policy.1 "garbage" (by decide) (by decide) (by decide),
   parseTimeStr_policy.2.1 "2 hours" (by decide) (by decide),
   parseTimeStr_policy.2.2.1 "30 minutes" (by decide) (by decide) (by decide),
   parseTimeStr_policy.2.2.2.1 "6-8 hours" ['6', '-', '8'] ['6'] ['8'] [] 6 8
     (by decide) (by decide) (by decide)
     (by simp [pyFloat?, splitOnCh, stripCh, digitsVal, isSpaceCh])
     (by simp [pyFloat?, splitOnCh, stripCh, digitsVal, isSpaceCh])⟩

/-- C2.  With a stored path and a start date, whenever the effective daily
budget `min(daily_hours, weekly_hours/7)` is zero, `computeEstimate`
(`_calculate_completion_estimates`) raises instead of performing the
division `total_hours / effective_daily_hours`; the raised
`ZeroDivisionError` is the spec's `InvalidConfigError`, and no estimate is
stored. -/
theorem computeEstimate_zero_budget (p : Profile) (path_id : String) (pd : PathData) (sd : Rat)
    (hlp : alookup p.learning_paths path_id = some pd)
    (hsd : p.preferences.timeline.start_date = some sd)
    (h0 : min p.preferences.time_constraints.daily_hours
        (p.preferences.time_constraints.weekly_hours / 7) = 0) :
    calculate_completion_estimates p path_id = .error .invalidConfig := by
  simp only [calculate_completion_estimates, hlp, hsd, h0]
  simp

/-- A profile with `exPath` stored, a start date, and a zero hour budget. -/
def exProfileZeroBudget : Profile :=
  { learning_paths := [("p", exPath)], progress := [("p", exProgressPre)], quiz_results := [],
    preferences :=
      { difficulty := "medium", learning_style := "visual", learning_level := "intermediate",
        time_constraints := { daily_hours := 0, weekly_hours := 0, target_completion_date := none },
        timeline := { start_date := some 0, milestones := [], completion_estimates := [] } } }

/-- C2 (witness): `daily_hours = 0`, `weekly_hours = 0` forces
`effective_daily_hours = 0` and the operation fails with
`InvalidConfigError`. -/
theorem computeEstimate_zero_budget_witness :
    calculate_completion_estimates exProfileZeroBudget "p" = .error .invalidConfig :=
  computeEstimate_zero_budget exProfileZeroBudget "p" exPath 0 rfl rfl
    (by norm_num [exProfileZeroBudget])

/-- C3.  Completing an in-bounds topic of a stored path adds
`"<module_index>_<topic_index>"` to `completed_topics` without duplicates;
exactly when every topic index of the module is then present and the
module is not already recorded, the module index is appended exactly once
and the current position advances to `(module_index+1, 0)` when a next
module exists, and is left unchanged when the module is the last one; in
every other case `completed_modules` and the current position are
unchanged. -/
theorem update_progress_completion (p : Profile) (path_id : String) (mi ti : Nat) (now : Nat)
    (pr : ProgressRecord) (pd : PathData) (md : PathModule) (p' : Profile)
    (hpr : alookup p.progress path_id = some pr)
    (hlp : alookup p.learning_paths path_id = some pd)
    (hmd : pd.modules.get? mi = some md)
    (hti : ti < md.topics.length)
    (hndt : pr.completed_topics.Nodup)
    (h : update_progress p path_id mi ti true now = .ok p') :
    topicId mi ti ∈ completedTopicsOf p' path_id
    ∧ (completedTopicsOf p' path_id).Nodup
    ∧ pr.completed_topics ⊆ completedTopicsOf p' path_id
    ∧ (((∀ i, i < md.topics.length → topicId mi i ∈ completedTopicsOf p' path_id) ∧
          mi ∉ pr.completed_modules) →
        ((completedModulesOf p' path_id).count mi = 1
          ∧ (mi + 1 < pd.modules.length →
              currentModuleOf p' path_id = some (mi + 1) ∧
                currentTopicOf p' path_id = some 0)
          ∧ (¬ mi + 1 < pd.modules.length →
              currentModuleOf p' path_id = some pr.current_module ∧
                currentTopicOf p' path_id = some pr.current_topic)))
    ∧ ((¬ ((∀ i, i < md.topics.length → topicId mi i ∈ completedTopicsOf p' path_id) ∧
          mi ∉ pr.completed_modules)) →
        (completedModulesOf p' path_id = pr.completed_modules
          ∧ currentModuleOf p' path_id = some pr.current_module
          ∧ currentTopicOf p' path_id = some pr.current_topic)) := by
  simp only [update_progress, hpr, hlp, hmd, if_true] at h
  set ct : List String :=
    if topicId mi ti ∈ pr.completed_topics then pr.completed_topics
    else pr.completed_topics ++ [topicId mi ti] with hct
  have hctmem : topicId mi ti ∈ ct := by
    rw [hct]
    by_cases hmem : topicId mi ti ∈ pr.completed_topics
    · simpa [hmem] using hmem
    · simp [hmem]
  have hctnd : ct.Nodup := by
    rw [hct]
    by_cases hmem : topicId mi ti ∈ pr.completed_topics
    · simpa [hmem] using hndt
    · simp [hmem, List.nodup_append, hndt]
  have hctsup : pr.completed_topics ⊆ ct := by
    rw [hct]
    by_cases hmem : topicId mi ti ∈ pr.completed_topics
    · simp [hmem]
    · simp only [if_neg hmem]
      exact List.subset_append_left _ _
  split at h
  · rename_i hcond
    by_cases hnext : mi + 1 < pd.modules.length
    · rw [if_pos hnext] at h
      injection h with h
      subst h
      have hform : completedTopicsOf
          { p with
              progress := aupsert p.progress path_id
                { pr with
                    completed_topics := ct
                    completed_modules := pr.completed_modules ++ [mi]
                    current_module := mi + 1
                    current_topic := 0
                    last_accessed := now } } path_id = ct := by
        simp [completedTopicsOf, alookup_aupsert_self]
      refine ⟨?_, ?_, ?_, ?_, ?_⟩
      · rw [hform]; exact hctmem
      · rw [hform]; exact hctnd
      · rw [hform]; exact hctsup
      · intro _
        refine ⟨?_, ?_, ?_⟩
        · simp [completedModulesOf, alookup_aupsert_self, List.count_append,
            List.count_eq_zero.mpr hcond.2]
        · intro _
          constructor <;> simp [currentModuleOf, currentTopicOf, alookup_aupsert_self]
        · intro hc; exact absurd hnext hc
      · intro hnc
        exact absurd ⟨fun i hi => by rw [hform]; exact hcond.1 i hi, hcond.2⟩ hnc
    · rw [if_neg hnext] at h
      injection h with h
      subst h
      have hform : completedTopicsOf
          { p with
              progress := aupsert p.progress path_id
                { pr with
                    completed_topics := ct
                    completed_modules := pr.completed_modules ++ [mi]
                    last_accessed := now } } path_id = ct := by
        simp [completedTopicsOf, alookup_aupsert_self]
      refine ⟨?_, ?_, ?_, ?_, ?_⟩
      · rw [hform]; exact hctmem
      · rw [hform]; exact hctnd
      · rw [hform]; exact hctsup
      · intro _
        refine ⟨?_, ?_, ?_⟩
        · simp [completedModulesOf, alookup_aupsert_self, List.count_append,
            List.count_eq_zero.mpr hcond.2]
        · intro hc; exact absurd hc hnext
        · intro _
          constructor <;> simp [currentModuleOf, currentTopicOf, alookup_aupsert_self]
      · intro hnc
        exact absurd ⟨fun i hi => by rw [hform]; exact hcond.1 i hi, hcond.2⟩ hnc
  · rename_i hcond
    injection h with h
    subst h
    have hform : completedTopicsOf
        { p with
            progress := aupsert p.progress path_id
              { pr with completed_topics := ct, last_accessed := now } } path_id = ct := by
      simp [completedTopicsOf, alookup_aupsert_self]
    refine ⟨?_, ?_, ?_, ?_, ?_⟩
    · rw [hform]; exact hctmem
    · rw [hform]; exact hctnd
    · rw [hform]; exact hctsup
    · intro hcon
      exact absurd ⟨fun i hi => by rw [← hform]; exact hcon.1 i hi, hcon.2⟩ hcond
    · intro _
      refine ⟨?_, ?_, ?_⟩ <;>
        simp [completedModulesOf, currentModuleOf, currentTopicOf, alookup_aupsert_self]

/-- The profile after recording topic `0_1` of `"p"` as completed on
`exProfilePre`: module 0 complete, position advanced to module 1, topic 0. -/
def exPostC3 : Profile :=
  { exProfilePre with
      progress := [("p",
        { current_module := 1, current_topic := 0, completed_modules := [0],
          completed_topics := ["0_0", "0_1"], last_accessed := 7 })] }

/-- C3 (witness): with topic `0_0` already completed, completing `0_1`
finishes module 0 exactly once and advances to `(1, 0)`. -/
theorem update_progress_completion_witness :
    topicId 0 1 ∈ completedTopicsOf exPostC3 "p"
    ∧ (completedTopicsOf exPostC3 "p").Nodup
    ∧ (completedModulesOf exPostC3 "p").count 0 = 1
    ∧ currentModuleOf exPostC3 "p" = some 1
    ∧ currentTopicOf exPostC3 "p" = some 0 := by
  have hmain := update_progress_completion exProfilePre "p" 0 1 7 exProgressPre exPath
    exModule exPostC3 (by decide) (by decide) (by decide) (by decide) (by decide) (by decide)
  have hdone := hmain.2.2.2.1 ⟨by decide, by decide⟩
  exact ⟨hmain.1, hmain.2.1, hdone.1, (hdone.2.1 (by decide)).1, (hdone.2.1 (by decide)).2⟩

/-- C4.  A successful `record_quiz_result` stores exactly one result under
`(path_id, "<module_index>_<topic_index>")`, with `passed` equal to
`score >= 70` and the given score and timestamp; the stored map keeps one
entry per key (a later recording for the same key overwrites in place,
never appends a duplicate). -/
theorem record_quiz_upsert (p : Profile) (path_id : String) (mi ti : Nat) (score : Rat)
    (now : Nat) (p' : Profile)
    (h : record_quiz_result p path_id mi ti score now = .ok p')
    (hnd1 : (akeys p.quiz_results).Nodup)
    (hnd2 : ∀ pe ∈ p.quiz_results, (akeys pe.2).Nodup) :
    alookup2 p'.quiz_results path_id (topicId mi ti) =
      some { score := score, passed := decide (70 ≤ score), timestamp := now }
    ∧ (decide (70 ≤ score) = true ↔ 70 ≤ score)
    ∧ (akeys p'.quiz_results).Nodup
    ∧ (akeys (quizTopicsOf p' path_id)).count (topicId mi ti) = 1 := by
  simp only [record_quiz_result] at h
  have hq : p'.quiz_results =
      aupsert p.quiz_results path_id
        (aupsert ((alookup p.quiz_results path_id).getD []) (topicId mi ti)
          { score := score, passed := decide (70 ≤ score), timestamp := now }) := by
    split at h
    · exact (update_progress_frame _ _ _ _ _ _ _ h).2.1
    · injection h with h; subst h; rfl
  have hmnd : (akeys ((alookup p.quiz_results path_id).getD [])).Nodup := by
    cases hm : alookup p.quiz_results path_id with
    | none => simp [akeys]
    | some m0 => simpa using hnd2 (path_id, m0) (alookup_some_mem _ _ _ hm)
  refine ⟨?_, decide_eq_true_iff, ?_, ?_⟩
  · simp [alookup2, hq, alookup_aupsert_self]
  · rw [hq]; exact nodup_akeys_aupsert _ _ _ hnd1
  · have : quizTopicsOf p' path_id =
        aupsert ((alookup p.quiz_results path_id).getD []) (topicId mi ti)
          { score := score, passed := decide (70 ≤ score), timestamp := now } := by
      simp [quizTopicsOf, hq, alookup_aupsert_self]
    rw [this]
    exact List.count_eq_one_of_mem (nodup_akeys_aupsert _ _ _ hmnd)
      ((mem_akeys_aupsert _ _ _ _).mpr (Or.inr rfl))

/-- The profile after recording score 85 for topic `0_0` on
`exProfilePre` (all of module 0 is not yet complete, so only the quiz
result and `last_accessed` change). -/
def exPostC4 : Profile :=
  { learning_paths := [("p", exPath)],
    progress := [("p",
      { current_module := 0, current_topic := 0, completed_modules := [],
        completed_topics := ["0_0"], last_accessed := 5 })],
    quiz_results := [("p", [("0_0", { score := 85, passed := true, timestamp := 5 })])],
    preferences := defaultPreferences }

/-- C4 (witness): recording score 85 at `(0,0)` stores one passing result
under `("p", "0_0")`. -/
theorem record_quiz_upsert_witness :
    alookup2 exPostC4.quiz_results "p" (topicId 0 0) =
      some { score := 85, passed := decide ((70 : Rat) ≤ 85), timestamp := 5 }
    ∧ (akeys exPostC4.quiz_results).Nodup
    ∧ (akeys (quizTopicsOf exPostC4 "p")).count (topicId 0 0) = 1 := by
  have hmain := record_quiz_upsert exProfilePre "p" 0 0 85 5 exPostC4
    (by decide) (by decide) (by decide)
  exact ⟨hmain.1, hmain.2.2.1, hmain.2.2.2⟩

/-- C5 (counterexample).  The claim says `update_progress` fails with
`BoundsError` whenever `topic_index` is out of bounds.  On `exProfilePre`
module 0 has only two topics, yet completing topic index 99 succeeds:
the code never indexes the topic list by `topic_index`, it only
interpolates it into the topic-id string. -/
theorem update_progress_out_of_bounds_topic_ok :
    exceptOk (update_progress exProfilePre "p" 0 99 true 3) = true
    ∧ (exPath.modules.get? 0).map (fun md => md.topics.length) = some 2 := by
  exact ⟨by decide, by decide⟩

/-- The error policy `update_progress` actually implements, written from
the amended claim: a missing `path_id` is `NotFoundError` (checked in
`progress`, and — only when `completed` is true — also in
`learning_paths`); `BoundsError` occurs exactly when `completed` is true
and `module_index` is at or beyond the module count; `topic_index` is
never bounds-checked, and with `completed = false` no bounds check happens
at all. -/
def updateProgressErrorSpec (p : Profile) (path_id : String) (mi : Nat) (completed : Bool) :
    Option ProfileError :=
  match alookup p.progress path_id with
  | none => some .notFound
  | some _ =>
      if completed then
        match alookup p.learning_paths path_id with
        | none => some .notFound
        | some pd => if pd.modules.length ≤ mi then some .bounds else none
      else none

/-- C5 (amended).  `update_progress` raises `NotFoundError` exactly on a
missing path (progress always; learning-path data only when completing),
raises `BoundsError` exactly when completing with `module_index` out of
bounds of the module list, and raises nothing else — in particular an
out-of-bounds `topic_index` raises nothing. -/
theorem update_progress_error_policy (p : Profile) (path_id : String) (mi ti : Nat)
    (c : Bool) (now : Nat) :
    errorOf (update_progress p path_id mi ti c now) = updateProgressErrorSpec p path_id mi c := by
  cases c with
  | false =>
      simp only [update_progress, updateProgressErrorSpec, Bool.false_eq_true, if_false]
      cases hpr : alookup p.progress path_id <;> simp [errorOf]
  | true =>
      simp only [update_progress, updateProgressErrorSpec, if_true]
      cases hpr : alookup p.progress path_id with
      | none => simp [errorOf]
      | some pr =>
          cases hlp : alookup p.learning_paths path_id with
          | none => simp [errorOf]
          | some pd =>
              try simp only [List.get?_eq_getElem?]
              cases hmd : pd.modules[mi]? with
              | none =>
                  rw [List.getElem?_eq_none_iff] at hmd
                  simp [errorOf, hmd]
              | some md =>
                  have hlt : ¬ pd.modules.length ≤ mi := by
                    intro hle
                    rw [← List.getElem?_eq_none_iff] at hle
                    rw [hle] at hmd
                    exact Option.noConfusion hmd
                  simp only [if_neg hlt]
                  repeat' split
                  all_goals simp [errorOf]

theorem nodup_akeys_saveQuizFold (db : List ((String × (String × String)) × QuizResult))
    (uid : String) (qrs : List (String × List (String × QuizResult)))
    (hdb : (akeys db).Nodup) :
    (akeys (qrs.foldl
      (fun acc pe => saveTable acc uid (pe.2.map (fun te => ((pe.1, te.1), te.2)))) db)).Nodup := by
  induction qrs generalizing db with
  | nil => exact hdb
  | cons pe rest ih => exact ih _ (nodup_akeys_saveTable _ _ _ hdb)

/-- C6.  Saving a profile and loading the same user reproduces it: the
preferences blob and every learning-path, progress and quiz-result entry
read back exactly as saved.  Hypotheses capture the lifecycle invariants
the class maintains: the user row exists (created by `_load_profile` on
first access, since `save_profile`'s SQL `UPDATE` would not create it),
the profile's dictionaries have unique keys (Python dicts), the
quiz-result table keys are unique (schema `UNIQUE` constraints), and the
user's stored rows are all covered by the in-memory profile
(`save_profile` never deletes rows, so a stale extra row would be
resurrected on load). -/
theorem save_load_roundtrip (db : DB) (uid : String) (p : Profile) (now tload : Nat)
    (row : UserRow)
    (hrow : alookup db.users uid = some row)
    (hndlp : (akeys p.learning_paths).Nodup)
    (hndpr : (akeys p.progress).Nodup)
    (hndqr : (akeys p.quiz_results).Nodup)
    (hndqr2 : ∀ pe ∈ p.quiz_results, (akeys pe.2).Nodup)
    (hdbqr : (akeys db.quiz_results).Nodup)
    (hcovlp : ∀ pid, alookup db.learning_paths (uid, pid) ≠ none →
        alookup p.learning_paths pid ≠ none)
    (hcovpr : ∀ pid, alookup db.progress (uid, pid) ≠ none → alookup p.progress pid ≠ none)
    (hcovqr : ∀ pid tid, alookup db.quiz_results (uid, (pid, tid)) ≠ none →
        alookup2 p.quiz_results pid tid ≠ none) :
    (load_profile (save_profile db uid p now) uid tload).1.preferences = p.preferences
    ∧ (∀ pid, alookup (load_profile (save_profile db uid p now) uid tload).1.learning_paths pid
        = alookup p.learning_paths pid)
    ∧ (∀ pid, alookup (load_profile (save_profile db uid p now) uid tload).1.progress pid
        = alookup p.progress pid)
    ∧ (∀ pid tid,
        alookup2 (load_profile (save_profile db uid p now) uid tload).1.quiz_results pid tid
          = alookup2 p.quiz_results pid tid) := by
  have husers : alookup (save_profile db uid p now).users uid =
      some { row with preferences := p.preferences, updated_at := now } := by
    simp only [save_profile, hrow]
    exact alookup_aupsert_self _ _ _
  have hload : (load_profile (save_profile db uid p now) uid tload).1 =
      { learning_paths := userTable (save_profile db uid p now).learning_paths uid
        progress := userTable (save_profile db uid p now).progress uid
        quiz_results := groupQuiz (userTable (save_profile db uid p now).quiz_results uid)
        preferences := p.preferences } := by
    simp only [load_profile, husers]
  rw [hload]
  refine ⟨rfl, ?_, ?_, ?_⟩
  · intro pid
    have hsave : (save_profile db uid p now).learning_paths =
        saveTable db.learning_paths uid p.learning_paths := rfl
    rw [show alookup (userTable (save_profile db uid p now).learning_paths uid) pid =
        alookup (save_profile db uid p now).learning_paths (uid, pid) from
        alookup_userTable _ _ _]
    rw [hsave, alookup_saveTable db.learning_paths uid p.learning_paths hndlp pid]
    cases hpl : alookup p.learning_paths pid with
    | some v => rfl
    | none =>
        have hdbnone : alookup db.learning_paths (uid, pid) = none := by
          by_contra hne
          exact (hcovlp pid hne) hpl
        simp [hdbnone]
  · intro pid
    have hsave : (save_profile db uid p now).progress =
        saveTable db.progress uid p.progress := rfl
    rw [show alookup (userTable (save_profile db uid p now).progress uid) pid =
        alookup (save_profile db uid p now).progress (uid, pid) from alookup_userTable _ _ _]
    rw [hsave, alookup_saveTable db.progress uid p.progress hndpr pid]
    cases hpl : alookup p.progress pid with
    | some v => rfl
    | none =>
        have hdbnone : alookup db.progress (uid, pid) = none := by
          by_contra hne
          exact (hcovpr pid hne) hpl
        simp [hdbnone]
  · intro pid tid
    have hsave : (save_profile db uid p now).quiz_results =
        p.quiz_results.foldl
          (fun acc pe => saveTable acc uid (pe.2.map (fun te => ((pe.1, te.1), te.2))))
          db.quiz_results := rfl
    have hnd' : (akeys (save_profile db uid p now).quiz_results).Nodup := by
      rw [hsave]
      exact nodup_akeys_saveQuizFold _ _ _ hdbqr
    rw [alookup2_groupQuiz _ pid tid (nodup_akeys_userTable _ _ hnd'), alookup_userTable]
    rw [hsave, alookup_saveQuiz db.quiz_results uid p.quiz_results pid tid hndqr hndqr2]
    cases hql : alookup2 p.quiz_results pid tid with
    | some v => rfl
    | none =>
        have hdbnone : alookup db.quiz_results (uid, (pid, tid)) = none := by
          by_contra hne
          exact (hcovqr pid tid hne) hql
        simp [hdbnone]

/-- A database holding just the user row for `"u"`. -/
def exDB : DB :=
  { users := [("u", { preferences := defaultPreferences, created_at := 0, updated_at := 0 })],
    learning_paths := [], progress := [], quiz_results := [] }

/-- A profile with a path, progress and one quiz result to round-trip. -/
def exProfileFull : Profile :=
  { learning_paths := [("p", exPath)],
    progress := [("p", exProgressPre)],
    quiz_results := [("p", [("0_0", { score := 85, passed := true, timestamp := 2 })])],
    preferences := defaultPreferences }

/-- C6 (witness): a concrete save/load round-trip over a fresh database. -/
theorem save_load_roundtrip_witness :
    (load_profile (save_profile exDB "u" exProfileFull 3) "u" 4).1.preferences =
      exProfileFull.preferences
    ∧ alookup (load_profile (save_profile exDB "u" exProfileFull 3) "u" 4).1.learning_paths "p"
        = alookup exProfileFull.learning_paths "p"
    ∧ alookup (load_profile (save_profile exDB "u" exProfileFull 3) "u" 4).1.progress "p"
        = alookup exProfileFull.progress "p"
    ∧ alookup2 (load_profile (save_profile exDB "u" exProfileFull 3) "u" 4).1.quiz_results
          "p" "0_0"
        = alookup2 exProfileFull.quiz_results "p" "0_0" := by
  have hmain := save_load_roundtrip exDB "u" exProfileFull 3 4
    { preferences := defaultPreferences, created_at := 0, updated_at := 0 }
    (by decide) (by decide) (by decide) (by decide) (by decide) (by decide)
    (fun pid hne => absurd rfl hne)
    (fun pid hne => absurd rfl hne)
    (fun pid tid hne => absurd rfl hne)
  exact ⟨hmain.1, hmain.2.1 "p", hmain.2.2.1 "p", hmain.2.2.2 "p" "0_0"⟩

/-- C7 (counterexample).  The claim includes `addLearningPath` among the
operations that never remove completed topics, but `add_learning_path` on
an already-stored `path_id` replaces that path's progress record with a
fresh empty one: topic `0_0` of `"p"` is completed before the call and
gone after it. -/
theorem add_learning_path_resets_progress :
    "0_0" ∈ completedTopicsOf exProfilePre "p"
    ∧ "0_0" ∉ completedTopicsOf (add_learning_path exProfilePre "p" exPath 9) "p" :=
  ⟨by decide, by decide⟩

/-- C7 (amended).  `completed_topics` and `completed_modules` are
monotonically non-decreasing for every path across every core operation —
`updateProgress`, `recordResult`, `setStartDate`/`recordMilestone`
(`update_timeline`), preference updates and estimate recomputation — and
across `addLearningPath` for any `path_id` that does not already carry a
progress record.  Re-adding an existing `path_id` is the one exception the
counterexample forces: it resets that path's progress to empty. -/
theorem core_ops_monotone (p : Profile) (op : ProfileOp) (now : Nat) (p' : Profile)
    (hadd : ∀ pid pd, op = ProfileOp.addPath pid pd → alookup p.progress pid = none)
    (h : applyOp p op now = .ok p') (q : String) :
    completedTopicsOf p q ⊆ completedTopicsOf p' q
    ∧ completedModulesOf p q ⊆ completedModulesOf p' q := by
  cases op with
  | addPath pid pd =>
      have hnone := hadd pid pd rfl
      simp only [applyOp] at h
      injection h with h
      subst h
      by_cases hq : pid = q
      · subst hq
        constructor <;> simp [completedTopicsOf, completedModulesOf, hnone]
      · constructor <;>
          · simp only [completedTopicsOf, completedModulesOf, add_learning_path,
              alookup_aupsert_ne _ _ _ _ hq]
            exact fun a ha => ha
  | updateProg pid mi ti c =>
      exact update_progress_mono p pid mi ti c now p' h q
  | recordQuiz pid mi ti s =>
      simp only [applyOp, record_quiz_result] at h
      split at h
      · have hmono := update_progress_mono _ _ _ _ _ _ _ h q
        simpa [completedTopicsOf, completedModulesOf] using hmono
      · injection h with h
        subst h
        constructor <;>
          · simp only [completedTopicsOf, completedModulesOf]
            exact fun a ha => ha
  | setTimeline pid sd ms =>
      simp only [applyOp] at h
      cases hu : update_timeline p pid sd ms now with
      | error e => rw [hu] at h; exact Except.noConfusion h
      | ok bp =>
          rw [hu] at h
          obtain ⟨b, p2⟩ := bp
          simp only [Except.map] at h
          injection h with h
          subst h
          have hf := update_timeline_frame p pid sd ms now b p2 hu
          constructor <;>
            · simp only [completedTopicsOf, completedModulesOf, hf.1]
              exact fun a ha => ha
  | setPrefs lv dh wh tcd =>
      simp only [applyOp] at h
      injection h with h
      subst h
      have hpr : (update_preferences p lv dh wh tcd).progress = p.progress := rfl
      constructor <;>
        · simp only [completedTopicsOf, completedModulesOf, hpr]
          exact fun a ha => ha
  | calcEstimates pid =>
      simp only [applyOp] at h
      have hf := calculate_completion_estimates_frame p pid p' h
      constructor <;>
        · simp only [completedTopicsOf, completedModulesOf, hf.1]
          exact fun a ha => ha

/-- C7 (witness): a completing `updateProgress` call only extends the
completed sets. -/
theorem core_ops_monotone_witness :
    completedTopicsOf exProfilePre "p" ⊆ completedTopicsOf exPostC3 "p"
    ∧ completedModulesOf exProfilePre "p" ⊆ completedModulesOf exPostC3 "p" :=
  core_ops_monotone exProfilePre (ProfileOp.updateProg "p" 0 1 true) 7 exPostC3
    (fun pid pd hop => ProfileOp.noConfusion hop) (by decide) "p"

theorem length_validTopicIdsFrom (k : Nat) (mods : List PathModule) :
    (validTopicIdsFrom k mods).length = (mods.map (fun md => md.topics.length)).sum := by
  induction mods generalizing k with
  | nil => rfl
  | cons md rest ih => simp [validTopicIdsFrom, ih]

/-- The percentage field of a returned progress summary, if any. -/
def summaryPercentage (p : Profile) (path_id : String) : Option Rat :=
  match get_learning_path_progress p path_id with
  | .ok (some s) => some s.percentage_complete
  | _ => none

/-- A one-module, one-topic path used to exhibit the percentage overflow. -/
def exPathOne : PathData :=
  { modules := [{ topics := ["t0"], estimated_time := some "1 hours" }] }

/-- A fresh profile holding `exPathOne` under `"q"`. -/
def exProfileC8 : Profile :=
  { learning_paths := [("q", exPathOne)],
    progress := [("q",
      { current_module := 0, current_topic := 0, completed_modules := [],
        completed_topics := [], last_accessed := 0 })],
    quiz_results := [], preferences := defaultPreferences }

/-- `exProfileC8` after completing topic `(0,0)`: the single module is
done. -/
def exPostC8a : Profile :=
  { exProfileC8 with
      progress := [("q",
        { current_module := 0, current_topic := 0, completed_modules := [0],
          completed_topics := ["0_0"], last_accessed := 1 })] }

/-- `exPostC8a` after the out-of-bounds call
`update_progress("q", 0, 1, completed=True)`, which succeeds and appends
the bogus topic id `"0_1"`. -/
def exPostC8b : Profile :=
  { exProfileC8 with
      progress := [("q",
        { current_module := 0, current_topic := 0, completed_modules := [0],
          completed_topics := ["0_0", "0_1"], last_accessed := 2 })] }

/-- C8 (counterexample).  The claim says `percentage_complete` is always
within `[0, 100]`, but the state below is reachable through two public
`update_progress` calls on a fresh one-topic path: the second call passes
the out-of-bounds `topic_index = 1` — which raises nothing, since the code
never bounds-checks it — so `completed_topics` grows to two entries
against a single existing topic and the summary reports 200 percent. -/
theorem get_progress_summary_over_100 :
    update_progress exProfileC8 "q" 0 0 true 1 = .ok exPostC8a
    ∧ update_progress exPostC8a "q" 0 1 true 2 = .ok exPostC8b
    ∧ summaryPercentage exPostC8b "q" = some 200
    ∧ ¬ (summaryPercentage exPostC8b "q").getD 0 ≤ 100 := by
  have h200 : summaryPercentage exPostC8b "q" = some 200 := by
    simp [summaryPercentage, get_learning_path_progress, exPostC8b, exProfileC8, exPathOne]
    norm_num
  refine ⟨by decide, by decide, h200, ?_⟩
  rw [h200]
  norm_num

/-- C8 (amended).  `get_learning_path_progress` returns `null` exactly
when the path has no progress record.  When progress and path data exist,
the summary reports the path's topic total and the recorded
completed-topic count, and `percentage_complete` — `completed / total *
100`, or 0 when `total_topics = 0` — is always nonnegative and is at most
100 exactly when the recorded completed-topic count does not exceed
`total_topics`.  In particular it stays within `[0, 100]` whenever the
recorded topics are distinct valid topic ids of the path; profiles
violating that are reachable through the unchecked `topic_index` and
report more than 100. -/
theorem get_progress_summary_policy (p : Profile) (path_id : String) :
    (alookup p.progress path_id = none ↔
      get_learning_path_progress p path_id = .ok none)
    ∧ (∀ pr pd, alookup p.progress path_id = some pr →
        alookup p.learning_paths path_id = some pd →
        ∃ s, get_learning_path_progress p path_id = .ok (some s)
          ∧ s.total_topics = (pd.modules.map (fun md => md.topics.length)).sum
          ∧ s.completed_topics = pr.completed_topics.length
          ∧ 0 ≤ s.percentage_complete
          ∧ (s.total_topics = 0 → s.percentage_complete = 0)
          ∧ (s.percentage_complete ≤ 100 ↔
              (s.total_topics = 0 ∨ s.completed_topics ≤ s.total_topics))
          ∧ (pr.completed_topics ⊆ validTopicIds pd → pr.completed_topics.Nodup →
              s.percentage_complete ≤ 100)) := by
  constructor
  · constructor
    · intro h0
      simp [get_learning_path_progress, h0]
    · intro hok
      cases hpr : alookup p.progress path_id with
      | none => rfl
      | some pr =>
          simp only [get_learning_path_progress, hpr] at hok
          cases hpd : alookup p.learning_paths path_id with
          | none => rw [hpd] at hok; exact Except.noConfusion hok
          | some pd =>
              rw [hpd] at hok
              injection hok with hok
              exact Option.noConfusion hok
  · intro pr pd hpr hpd
    refine ⟨_, by simp only [get_learning_path_progress, hpr, hpd]; rfl, rfl, rfl,
      ?_, ?_, ?_, ?_⟩
    · by_cases h0 : 0 < (pd.modules.map (fun md => md.topics.length)).sum
      · simp only [if_pos h0]
        positivity
      · simp only [if_neg h0]
        norm_num
    · intro htz
      simp only at htz
      simp [htz]
    · by_cases h0 : 0 < (pd.modules.map (fun md => md.topics.length)).sum
      · simp only [if_pos h0]
        have hpos : (0 : Rat) <
            ((((pd.modules.map (fun md => md.topics.length)).sum : Nat)) : Rat) :=
          Nat.cast_pos.mpr h0
        constructor
        · intro hle
          refine Or.inr ?_
          rw [div_mul_eq_mul_div, div_le_iff₀ hpos] at hle
          have hq : (pr.completed_topics.length : Rat) ≤
              ((((pd.modules.map (fun md => md.topics.length)).sum : Nat)) : Rat) := by
            nlinarith
          exact Nat.cast_le.mp hq
        · rintro (hz | hle)
          · exact absurd (hz ▸ h0) (lt_irrefl 0)
          · have hcq : (pr.completed_topics.length : Rat) ≤
                ((((pd.modules.map (fun md => md.topics.length)).sum : Nat)) : Rat) :=
              Nat.cast_le.mpr hle
            rw [div_mul_eq_mul_div, div_le_iff₀ hpos]
            nlinarith
      · simp only [if_neg h0]
        have hz : (pd.modules.map (fun md => md.topics.length)).sum = 0 :=
          Nat.eq_zero_of_not_pos h0
        constructor
        · intro _
          exact Or.inl hz
        · intro _
          norm_num
    · intro hsub hnd
      have hc : pr.completed_topics.length ≤
          (pd.modules.map (fun md => md.topics.length)).sum := by
        have hle := (hnd.subperm hsub).length_le
        rwa [validTopicIds, length_validTopicIdsFrom] at hle
      by_cases h0 : 0 < (pd.modules.map (fun md => md.topics.length)).sum
      · simp only [if_pos h0]
        have hpos : (0 : Rat) <
            ((((pd.modules.map (fun md => md.topics.length)).sum : Nat)) : Rat) :=
          Nat.cast_pos.mpr h0
        have hcq : (pr.completed_topics.length : Rat) ≤
            ((((pd.modules.map (fun md => md.topics.length)).sum : Nat)) : Rat) :=
          Nat.cast_le.mpr hc
        rw [div_mul_eq_mul_div, div_le_iff₀ hpos]
        nlinarith
      · simp only [if_neg h0]
        norm_num

/-- C8 (witness): a fresh profile reports `null` for an unknown path, and
the well-formed `exProfilePre` summary stays within `[0, 100]`. -/
theorem get_progress_summary_policy_witness :
    get_learning_path_progress emptyProfile "p" = .ok none
    ∧ 0 ≤ (summaryPercentage exProfilePre "p").getD 999
    ∧ (summaryPercentage exProfilePre "p").getD 999 ≤ 100 := by
  obtain ⟨s, hs, hstt, hsc, h0, hz, hiff, hwf⟩ :=
    (get_progress_summary_policy exProfilePre "p").2 exProgressPre exPath
      (by decide) (by decide)
  refine ⟨(get_progress_summary_policy emptyProfile "p").1.mp rfl, ?_, ?_⟩
  · simp only [summaryPercentage, hs, Option.getD_some]
    exact h0
  · simp only [summaryPercentage, hs, Option.getD_some]
    exact hwf (by decide) (by decide)

/-- C9.  Recording a score below 70 stores the result with
`passed = false` and leaves the whole progress map (and the path data)
untouched: `completed_topics`, `completed_modules`, `current_module`,
`current_topic` and even `last_accessed` are identical before and after. -/
theorem record_fail_leaves_progress (p : Profile) (path_id : String) (mi ti : Nat)
    (score : Rat) (now : Nat) (p' : Profile)
    (hs : score < 70)
    (h : record_quiz_result p path_id mi ti score now = .ok p') :
    p'.progress = p.progress
    ∧ p'.learning_paths = p.learning_paths
    ∧ alookup2 p'.quiz_results path_id (topicId mi ti) =
        some { score := score, passed := false, timestamp := now } := by
  have hnot : ¬ (70 ≤ score) := not_le.mpr hs
  simp only [record_quiz_result, if_neg hnot] at h
  injection h with h
  subst h
  have hdec : decide (70 ≤ score) = false := decide_eq_false hnot
  refine ⟨rfl, rfl, ?_⟩
  simp [alookup2, alookup_aupsert_self, hdec]

/-- The profile after recording the failing score 50 for topic `0_1` on
`exProfileFull`: only the quiz-result map changes. -/
def exPostC9 : Profile :=
  { exProfileFull with
      quiz_results := [("p",
        [("0_0", { score := 85, passed := true, timestamp := 2 }),
         ("0_1", { score := 50, passed := false, timestamp := 8 })])] }

/-- C9 (witness): score 50 at `(0,1)` stores a failing result and leaves
progress identical. -/
theorem record_fail_leaves_progress_witness :
    exPostC9.progress = exProfileFull.progress
    ∧ alookup2 exPostC9.quiz_results "p" (topicId 0 1) =
        some { score := 50, passed := false, timestamp := 8 } := by
  have hmain := record_fail_leaves_progress exProfileFull "p" 0 1 50 8 exPostC9
    (by norm_num) (by decide)
  exact ⟨hmain.1, hmain.2.2⟩

/-- C10.  `record_quiz_result` does not check that the path exists when the
score is failing: for a `path_id` absent from both `learning_paths` and
`progress`, a score below 70 succeeds and creates a `quiz_results` entry
under the nonexistent path, whereas a score of 70 or more fails with
`NotFoundError` because the delegated `update_progress` looks the path up
in `progress`. -/
theorem record_quiz_missing_path (p : Profile) (path_id : String) (mi ti : Nat) (score : Rat)
    (now : Nat)
    (hlp : alookup p.learning_paths path_id = none)
    (hpr : alookup p.progress path_id = none) :
    (score < 70 → ∃ p', record_quiz_result p path_id mi ti score now = .ok p'
        ∧ alookup2 p'.quiz_results path_id (topicId mi ti) =
            some { score := score, passed := false, timestamp := now })
    ∧ (70 ≤ score → record_quiz_result p path_id mi ti score now = .error .notFound) := by
  constructor
  · intro hs
    have hnot : ¬ (70 ≤ score) := not_le.mpr hs
    have hdec : decide (70 ≤ score) = false := decide_eq_false hnot
    refine ⟨_, by simp only [record_quiz_result, if_neg hnot]; rfl, ?_⟩
    simp [alookup2, alookup_aupsert_self, hdec]
  · intro hs
    simp only [record_quiz_result, if_pos hs]
    simp [update_progress, hpr]

/-- C10 (witness): on an empty profile, recording score 50 for an unknown
path succeeds while recording score 90 raises `NotFoundError`. -/
theorem record_quiz_missing_path_witness :
    exceptOk (record_quiz_result emptyProfile "x" 0 0 50 5) = true
    ∧ record_quiz_result emptyProfile "x" 0 0 90 5 = .error .notFound := by
  obtain ⟨p', hok, _⟩ :=
    (record_quiz_missing_path emptyProfile "x" 0 0 50 5 rfl rfl).1 (by norm_num)
  refine ⟨by rw [hok]; rfl, ?_⟩
  exact (record_quiz_missing_path emptyProfile "x" 0 0 90 5 rfl rfl).2 (by norm_num)
